import Mathlib

/-!
# cb-spider: mock security-group handler and GCP public-IP handler

A shallow embedding of

* `cloud-driver/drivers/mock/resources/SecurityHandler.go`
* `cloud-driver/drivers/gcp/resources/PublicIPHandler.go`

The process-wide Go map `securityInfoMap` is passed explicitly: every mock
operation takes the registry it runs on and returns the registry it leaves
behind.  A Go `error` is `Option String` (`none` is `nil`), a Go slice or
pointer that may be `nil` is an `Option`.
-/

namespace CBSpider

/-! ## Data model (package `irs`) -/

/-- Modelled from the spec: `irs.IID`, the pair of caller-chosen name and
backend-chosen system id (the declaration is outside the two source files). -/
structure IID where
  NameId : String
  SystemId : String
deriving DecidableEq, Repr

/-- Modelled from the spec: `irs.KeyValue`, a key with a string-serialised value. -/
structure KeyValue where
  Key : String
  Value : String
deriving DecidableEq, Repr

/-- Modelled from the spec: `irs.SecurityRuleInfo`; a rule is not inspected by
the handlers, so it is carried as one uninterpreted payload. -/
structure SecurityRuleInfo where
  payload : String
deriving DecidableEq, Repr

/-- Modelled from the spec: `irs.SecurityReqInfo`, the four fields that
`CreateSecurity` reads.  `SecurityRules` is a Go pointer to a slice. -/
structure SecurityReqInfo where
  IId : IID
  VpcIID : IID
  Direction : String
  SecurityRules : Option (List SecurityRuleInfo)
deriving DecidableEq, Repr

/-- Modelled from the spec: `irs.SecurityInfo`, in the field order of the
positional literal at `SecurityHandler.go:41-45`. -/
structure SecurityInfo where
  IId : IID
  VpcIID : IID
  Direction : String
  SecurityRules : Option (List SecurityRuleInfo)
  KeyValueList : Option (List KeyValue)
deriving DecidableEq, Repr

/-- The Go zero value `irs.SecurityInfo{}`. -/
def SecurityInfo.zero : SecurityInfo :=
  { IId := ⟨"", ""⟩, VpcIID := ⟨"", ""⟩, Direction := "",
    SecurityRules := none, KeyValueList := none }

/-! ## Mock backend (`SecurityHandler.go`) -/

/-- The global `securityInfoMap : map[string][]*irs.SecurityInfo`.  A key that
is absent from the Go map is `none`. -/
abbrev Registry := String → Option (List SecurityInfo)

/-- The registry after `func init()`: `make(map[...])`, no key present. -/
def Registry.init : Registry := fun _ => none

/-- The assignment `securityInfoMap[k] = v`. -/
def Registry.set (reg : Registry) (k : String) (v : List SecurityInfo) : Registry :=
  fun k' => if k' = k then some v else reg k'

/-- The receiver type `MockSecurityHandler`. -/
structure MockSecurityHandler where
  MockName : String
deriving DecidableEq, Repr

/-- What a mock operation hands back: its first result, its `error` result and
the registry after the call. -/
structure Ret (α : Type) where
  val : α
  err : Option String
  reg : Registry

/-- `CreateSecurity`, `SecurityHandler.go:33-53`. -/
def CreateSecurity (securityHandler : MockSecurityHandler) (reg : Registry)
    (securityReqInfo : SecurityReqInfo) : Ret SecurityInfo :=
  let mockName := securityHandler.MockName
  -- securityReqInfo.IId.SystemId = securityReqInfo.IId.NameId
  let securityReqInfo : SecurityReqInfo :=
    { securityReqInfo with
      IId := { securityReqInfo.IId with SystemId := securityReqInfo.IId.NameId } }
  let securityInfo : SecurityInfo :=
    ⟨securityReqInfo.IId, securityReqInfo.VpcIID, securityReqInfo.Direction,
      securityReqInfo.SecurityRules, none⟩
  -- infoList, _ := securityInfoMap[mockName]  (nil when the key is absent)
  let infoList := (reg mockName).getD []
  let infoList := infoList ++ [securityInfo]
  { val := securityInfo, err := none, reg := reg.set mockName infoList }

/-- `ListSecurity`, `SecurityHandler.go:55-68`. -/
def ListSecurity (securityHandler : MockSecurityHandler) (reg : Registry) :
    Ret (List SecurityInfo) :=
  let mockName := securityHandler.MockName
  match reg mockName with
  | none => { val := [], err := none, reg := reg }
  | some infoList => { val := infoList, err := none, reg := reg }

/-- The message of `fmt.Errorf("%s SecurityGroup does not exist!!")`: the verb
has no operand, so `fmt` prints `%!s(MISSING)` in its place. -/
def notExistError : String := "%!s(MISSING) SecurityGroup does not exist!!"

/-- The `for _, info := range infoList` loop of `GetSecurity`
(`SecurityHandler.go:80-84`): the first record with the wanted name. -/
def getLoop (iid : IID) : List SecurityInfo → Option SecurityInfo
  | [] => none
  | info :: rest => if info.IId.NameId = iid.NameId then some info else getLoop iid rest

/-- `GetSecurity`, `SecurityHandler.go:70-87`. -/
def GetSecurity (securityHandler : MockSecurityHandler) (reg : Registry) (iid : IID) :
    Ret SecurityInfo :=
  let listed := ListSecurity securityHandler reg
  match listed.err with
  | some err => { val := SecurityInfo.zero, err := some err, reg := listed.reg }
  | none =>
    match getLoop iid listed.val with
    | some info => { val := info, err := none, reg := listed.reg }
    | none => { val := SecurityInfo.zero, err := some notExistError, reg := listed.reg }

/-- The `for idx, info := range infoList` scan of `DeleteSecurity`
(`SecurityHandler.go:100-101`): the index at which the loop body fires,
counting from `idx` at the head of the remaining list. -/
def deleteLoop (iid : IID) : List SecurityInfo → Nat → Option Nat
  | [], _ => none
  | info :: rest, idx =>
    if info.IId.NameId = iid.NameId then some idx else deleteLoop iid rest (idx + 1)

/-- `DeleteSecurity`, `SecurityHandler.go:89-108`.  On a match the body is
`append(infoList[:idx], infoList[idx+1:]...)` on the copy made by
`ListSecurity`, stored back under `mockName`. -/
def DeleteSecurity (securityHandler : MockSecurityHandler) (reg : Registry) (iid : IID) :
    Ret Bool :=
  let listed := ListSecurity securityHandler reg
  match listed.err with
  | some err => { val := false, err := some err, reg := listed.reg }
  | none =>
    let mockName := securityHandler.MockName
    let infoList := listed.val
    match deleteLoop iid infoList 0 with
    | some idx =>
      let infoList := infoList.take idx ++ infoList.drop (idx + 1)
      { val := true, err := none, reg := listed.reg.set mockName infoList }
    | none => { val := false, err := none, reg := listed.reg }

/-- Registries reachable from the empty one by `CreateSecurity` and
`DeleteSecurity` calls on any handlers with any arguments. -/
inductive Reachable : Registry → Prop
  | init : Reachable Registry.init
  | create (h : MockSecurityHandler) (req : SecurityReqInfo) {reg : Registry} :
      Reachable reg → Reachable (CreateSecurity h reg req).reg
  | delete (h : MockSecurityHandler) (iid : IID) {reg : Registry} :
      Reachable reg → Reachable (DeleteSecurity h reg iid).reg

/-- One call of a mock operation: the handler it is made on and its argument. -/
inductive Op where
  | create (h : MockSecurityHandler) (req : SecurityReqInfo)
  | list (h : MockSecurityHandler)
  | get (h : MockSecurityHandler) (iid : IID)
  | delete (h : MockSecurityHandler) (iid : IID)
deriving DecidableEq, Repr

/-- The registry a call leaves behind. -/
def Op.run : Op → Registry → Registry
  | .create h req, reg => (CreateSecurity h reg req).reg
  | .list h, reg => (ListSecurity h reg).reg
  | .get h iid, reg => (GetSecurity h reg iid).reg
  | .delete h iid, reg => (DeleteSecurity h reg iid).reg

/-- The registry after a sequence of calls, made one after the other. -/
def runOps : List Op → Registry → Registry
  | [], reg => reg
  | op :: ops, reg => runOps ops (op.run reg)

/-- A call is named when it is not a `CreateSecurity` with the empty string as
the requested name. -/
def Op.named : Op → Bool
  | .create _ req => req.IId.NameId != ""
  | _ => true

/-! ## GCP provider backend (`PublicIPHandler.go`) -/

/-- The fields of the provider's `compute.Address` that the handler reads.
`Users` is a slice that may be `nil`. -/
structure Address where
  Name : String
  Address : String
  Status : String
  Users : Option (List String)
deriving DecidableEq, Repr

/-- The provider's `compute.AddressList`: the handler reads `Items` only. -/
structure AddressList where
  Items : List Address
deriving DecidableEq, Repr

/-- Modelled from the spec: `irs.PublicIPInfo`, the fields the GCP handler
assigns (the declaration is outside the two source files). -/
structure PublicIPInfo where
  Name : String
  PublicIP : String
  OwnedVMID : String
  Status : String
  KeyValueList : Option (List KeyValue)
deriving DecidableEq, Repr

/-- The Go zero value of `irs.PublicIPInfo` (`var publicInfo irs.PublicIPInfo`). -/
def PublicIPInfo.zero : PublicIPInfo :=
  { Name := "", PublicIP := "", OwnedVMID := "", Status := "", KeyValueList := none }

/-- How a provider-backend operation ends: it returns its two results,
`log.Fatal` ends the process with a message, or the Go runtime stops the call
with a run-time panic (an index out of range). -/
inductive Outcome (α : Type) where
  | returned (val : α) (err : Option String)
  | fatal (msg : String)
  | panicked (msg : String)
deriving DecidableEq, Repr

/-- One pass of the loop body of `ListPublicIP` (`PublicIPHandler.go:62-68`):
a record is filled in from `item`; the accumulator `publicIpInfoArr` is not
assigned in the body, so the pass leaves it as it was. -/
def listPublicIPBody (publicIpInfoArr : List PublicIPInfo) (item : Address) :
    List PublicIPInfo :=
  let publicInfo : PublicIPInfo := PublicIPInfo.zero
  let publicInfo := { publicInfo with Name := item.Name }
  let publicInfo := { publicInfo with PublicIP := item.Address }
  let publicInfo := { publicInfo with Status := item.Status }
  (fun (_ : PublicIPInfo) => publicIpInfoArr) publicInfo

/-- `ListPublicIP`, `PublicIPHandler.go:53-70`.  `listDo` is what the provider
call `Client.Addresses.List(projectID, region).Do()` gave back. -/
def ListPublicIP (listDo : Except String AddressList) : Outcome (List PublicIPInfo) :=
  match listDo with
  | .error err => .fatal err
  | .ok list =>
    -- var publicIpInfoArr []*irs.PublicIPInfo
    let publicIpInfoArr : List PublicIPInfo := []
    let publicIpInfoArr := list.Items.foldl listPublicIPBody publicIpInfoArr
    .returned publicIpInfoArr none

/-- The addresses the provider holds in the handler's project and region. -/
abbrev Backend := List Address

/-- `DeletePublicIP`, `PublicIPHandler.go:117-120`: the body is
`return true, nil`; no provider call is made, so the backend is handed back as
it was received. -/
def DeletePublicIP (backend : Backend) (_publicIPID : String) :
    (Bool × Option String) × Backend :=
  ((true, none), backend)

/-- Modelled from the spec: the generic tree that the provider's raw response
decodes to, with nodes that are scalars, arrays or objects (section 9 of the
spec); `encoding/json` and the provider SDK are outside the source files. -/
inductive RawValue where
  | scalar (text : String)
  | array (items : List RawValue)
  | object (fields : List (String × RawValue))

/-- Modelled from the spec: the generic field mapping `map[string]interface{}`
as the sequence of its fields in the order in which a `range` over the map
happens to visit them.  A Go map holds every key once and has no order of its
own: two sequences that are permutations of each other stand for the same map. -/
abbrev RawMapping := List (String × RawValue)

mutual
/-- Modelled from the spec: the textual form to which the Property Normalizer
serialises a value; a nested structure becomes one string and is not expanded
into further entries. -/
def RawValue.render : RawValue → String
  | .scalar text => text
  | .array items => "[" ++ RawValue.renderItems items ++ "]"
  | .object fields => "\x7b" ++ RawValue.renderFields fields ++ "\x7d"
/-- The items of an array, each followed by a comma. -/
def RawValue.renderItems : List RawValue → String
  | [] => ""
  | v :: vs => v.render ++ "," ++ RawValue.renderItems vs
/-- The fields of an object, each as `key:value` followed by a comma. -/
def RawValue.renderFields : List (String × RawValue) → String
  | [] => ""
  | (k, v) :: fs => k ++ ":" ++ v.render ++ "," ++ RawValue.renderFields fs
end

/-- The order of two keys, compared character by character: a key comes
before every key that it is a beginning of, and otherwise the first character
that differs decides. -/
def keyLE : List Char → List Char → Bool
  | [], _ => true
  | _ :: _, [] => false
  | a :: as, b :: bs =>
    if a.toNat < b.toNat then true
    else if b.toNat < a.toNat then false
    else keyLE as bs

/-- A field put into a sequence of fields that is in ascending key order, in
front of the first field whose key is not smaller. -/
def insertField (kv : String × RawValue) : RawMapping → RawMapping
  | [] => [kv]
  | e :: es =>
    if keyLE kv.1.data e.1.data then kv :: e :: es else e :: insertField kv es

/-- The fields of a mapping in ascending key order. -/
def sortFields : RawMapping → RawMapping
  | [] => []
  | kv :: rest => insertField kv (sortFields rest)

/-- Modelled from the spec: the Property Normalizer `GetKeyValueList`, which is
called at `PublicIPHandler.go:103` on the decoded Go map and defined outside
the source files.  It gives one `KeyValue` per field of the mapping, with the
field's key and the field's value serialised to a string.  The spec asks for
an order that repeated calls on the same input agree on, and the map handed
over has none of its own, so the entries come in ascending key order. -/
def GetKeyValueList (i : RawMapping) : List KeyValue :=
  (sortFields i).map (fun kv => { Key := kv.1, Value := kv.2.render })

/-- The pieces of `cs` between the occurrences of `sep`. -/
def splitChars (sep : Char) : List Char → List (List Char)
  | [] => [[]]
  | c :: cs =>
    if c = sep then [] :: splitChars sep cs
    else
      match splitChars sep cs with
      | [] => [[c]]
      | seg :: segs => (c :: seg) :: segs

/-- Go's `strings.Split(s, sep)` for a separator of one ASCII character, as
at `PublicIPHandler.go:94` where it is `"/"`. -/
def strings.Split (s : String) (sep : Char) : List String :=
  (splitChars sep s.data).map String.mk

/-- The message of the Go runtime's panic on an index that is out of range. -/
def indexOutOfRange : String := "runtime error: index out of range"

/-- `GetPublicIP`, `PublicIPHandler.go:72-115`.  `getDo` is what the provider
call `Client.Addresses.Get(projectID, region, name).Do()` gave back;
`marshalJSON info` is the generic mapping that `info.MarshalJSON()` followed by
`json.Unmarshal(infoByte, &result)` yields, or the error of `MarshalJSON`. -/
def GetPublicIP (getDo : Except String Address)
    (marshalJSON : Address → Except String RawMapping) : Outcome PublicIPInfo :=
  match getDo with
  | .error err => .fatal err
  | .ok info =>
    match marshalJSON info with
    | .error err => .fatal err
    | .ok result =>
      let publicInfo : PublicIPInfo := PublicIPInfo.zero
      let publicInfo := { publicInfo with Name := info.Name }
      let publicInfo := { publicInfo with PublicIP := info.Address }
      -- if users := info.Users; users != nil { ... }
      let afterUsers : Except String PublicIPInfo :=
        match info.Users with
        | none => .ok publicInfo
        | some users =>
          match users[0]? with
          | none => .error indexOutOfRange
          | some user0 =>
            let vmArr := strings.Split user0 '/'
            match vmArr[vmArr.length - 1]? with
            | none => .error indexOutOfRange
            | some vm => .ok { publicInfo with OwnedVMID := vm }
      match afterUsers with
      | .error msg => .panicked msg
      | .ok publicInfo =>
        let publicInfo := { publicInfo with Status := info.Status }
        let keyValueList := GetKeyValueList result
        let publicInfo := { publicInfo with KeyValueList := some keyValueList }
        -- `err` is still the nil of `MarshalJSON`: the check at line 110 passes
        .returned publicInfo none

/-- `CreatePublicIP`, `PublicIPHandler.go:35-51`.  Both results of the
provider's `Insert(...).Do()` are dropped; `getDo` and `marshalJSON` are what
the `GetPublicIP` call after the settle delay works on. -/
def CreatePublicIP (insertDo : Except String Unit) (getDo : Except String Address)
    (marshalJSON : Address → Except String RawMapping) : Outcome PublicIPInfo :=
  (fun (_ : Except String Unit) =>
    match GetPublicIP getDo marshalJSON with
    | .fatal msg => .fatal msg
    | .panicked msg => .panicked msg
    | .returned publicIPInfo err =>
      match err with
      | some e => .fatal e
      | none => .returned publicIPInfo err) insertDo

/-! ## Concrete inputs -/

/-- The request of the spec's scenario: `sg-1`, direction inbound, no rules. -/
def sg1 : SecurityReqInfo :=
  { IId := ⟨"sg-1", ""⟩, VpcIID := ⟨"vpc-1", "vpc-1"⟩, Direction := "inbound",
    SecurityRules := some [] }

/-- A second request, named `sg-2`. -/
def sg2 : SecurityReqInfo :=
  { IId := ⟨"sg-2", ""⟩, VpcIID := ⟨"vpc-1", "vpc-1"⟩, Direction := "outbound",
    SecurityRules := none }

/-- The record `CreateSecurity` stores for `sg1`. -/
def rec1 : SecurityInfo :=
  ⟨⟨"sg-1", "sg-1"⟩, ⟨"vpc-1", "vpc-1"⟩, "inbound", some [], none⟩

/-- The record `CreateSecurity` stores for `sg2`. -/
def rec2 : SecurityInfo :=
  ⟨⟨"sg-2", "sg-2"⟩, ⟨"vpc-1", "vpc-1"⟩, "outbound", none, none⟩

/-- A record named `sg-1` that differs from `rec1` in its direction. -/
def rec1b : SecurityInfo :=
  ⟨⟨"sg-1", "sg-1"⟩, ⟨"vpc-1", "vpc-1"⟩, "outbound", some [], none⟩

/-- Instance `m1` after creating `sg1`. -/
def regOne : Registry := (CreateSecurity ⟨"m1"⟩ Registry.init sg1).reg

/-- Instance `m1` holding `sg-2`, `sg-1`, `sg-2`, `sg-1` in this order. -/
def regFour : Registry := Registry.set Registry.init "m1" [rec2, rec1, rec2, rec1b]

/-- A reserved address that no instance uses. -/
def addr1 : Address :=
  { Name := "ip-1", Address := "34.64.0.1", Status := "RESERVED", Users := none }

/-- A request whose name is the empty string. -/
def sgEmpty : SecurityReqInfo :=
  { IId := ⟨"", ""⟩, VpcIID := ⟨"vpc-1", "vpc-1"⟩, Direction := "inbound",
    SecurityRules := none }

/-- An address in use by one instance, named by its resource path. -/
def addrInUse : Address :=
  { Name := "ip-2", Address := "34.64.0.2", Status := "IN_USE",
    Users := some ["zones/asia-a/instances/vm-1"] }

/-- An address whose `Users` is present and empty. -/
def addrNoUsers : Address :=
  { Name := "ip-3", Address := "34.64.0.3", Status := "RESERVED", Users := some [] }

/-- The raw mapping of a response with the fields `name` and `users`. -/
def rawTwo : RawMapping :=
  [("name", .scalar "ip-2"), ("users", .array [.scalar "zones/asia-a/instances/vm-1"])]

/-- The same two fields as `rawTwo`, visited in the other order. -/
def rawTwoSwapped : RawMapping :=
  [("users", .array [.scalar "zones/asia-a/instances/vm-1"]), ("name", .scalar "ip-2")]

/-- A `MarshalJSON` that succeeds with `rawTwo` on every address. -/
def marshalTwo : Address → Except String RawMapping := fun _ => .ok rawTwo

/-! ## Lemmas on the registry and the two scans -/

theorem Registry.set_same (reg : Registry) (k : String) (v : List SecurityInfo) :
    (Registry.set reg k v) k = some v := by
  simp [Registry.set]

theorem Registry.set_other (reg : Registry) {k k' : String} (hk : k' ≠ k)
    (v : List SecurityInfo) : (Registry.set reg k v) k' = reg k' := by
  simp [Registry.set, hk]

theorem ListSecurity_val (h : MockSecurityHandler) (reg : Registry) :
    (ListSecurity h reg).val = (reg h.MockName).getD [] := by
  cases hm : reg h.MockName <;> simp [ListSecurity, hm]

theorem ListSecurity_err (h : MockSecurityHandler) (reg : Registry) :
    (ListSecurity h reg).err = none := by
  cases hm : reg h.MockName <;> simp [ListSecurity, hm]

theorem ListSecurity_reg (h : MockSecurityHandler) (reg : Registry) :
    (ListSecurity h reg).reg = reg := by
  cases hm : reg h.MockName <;> simp [ListSecurity, hm]

theorem getLoop_eq_none (iid : IID) :
    ∀ l : List SecurityInfo, (∀ r ∈ l, r.IId.NameId ≠ iid.NameId) → getLoop iid l = none
  | [], _ => rfl
  | info :: rest, hl => by
    have h1 : info.IId.NameId ≠ iid.NameId := hl info (List.mem_cons_self _ _)
    have h2 : getLoop iid rest = none :=
      getLoop_eq_none iid rest (fun r hr => hl r (List.mem_cons_of_mem _ hr))
    simp [getLoop, h1, h2]

theorem getLoop_first (iid : IID) (r : SecurityInfo) (post : List SecurityInfo)
    (hr : r.IId.NameId = iid.NameId) :
    ∀ pre : List SecurityInfo, (∀ x ∈ pre, x.IId.NameId ≠ iid.NameId) →
      getLoop iid (pre ++ r :: post) = some r
  | [], _ => by simp [getLoop, hr]
  | x :: pre, hpre => by
    have h1 : x.IId.NameId ≠ iid.NameId := hpre x (List.mem_cons_self _ _)
    have h2 := getLoop_first iid r post hr pre (fun y hy => hpre y (List.mem_cons_of_mem _ hy))
    simp [getLoop, h1, h2]

theorem getLoop_some_name (iid : IID) :
    ∀ (l : List SecurityInfo) (r : SecurityInfo), getLoop iid l = some r →
      r ∈ l ∧ r.IId.NameId = iid.NameId
  | [], r, h => by simp [getLoop] at h
  | info :: rest, r, h => by
    by_cases h1 : info.IId.NameId = iid.NameId
    · simp [getLoop, h1] at h
      subst h
      exact ⟨List.mem_cons_self _ _, h1⟩
    · simp [getLoop, h1] at h
      have h2 := getLoop_some_name iid rest r h
      exact ⟨List.mem_cons_of_mem _ h2.1, h2.2⟩

theorem deleteLoop_eq_none (iid : IID) :
    ∀ (l : List SecurityInfo) (idx : Nat), (∀ r ∈ l, r.IId.NameId ≠ iid.NameId) →
      deleteLoop iid l idx = none
  | [], _, _ => rfl
  | info :: rest, idx, hl => by
    have h1 : info.IId.NameId ≠ iid.NameId := hl info (List.mem_cons_self _ _)
    have h2 : deleteLoop iid rest (idx + 1) = none :=
      deleteLoop_eq_none iid rest (idx + 1) (fun r hr => hl r (List.mem_cons_of_mem _ hr))
    simp [deleteLoop, h1, h2]

theorem deleteLoop_first (iid : IID) (r : SecurityInfo) (post : List SecurityInfo)
    (hr : r.IId.NameId = iid.NameId) :
    ∀ (pre : List SecurityInfo) (idx : Nat), (∀ x ∈ pre, x.IId.NameId ≠ iid.NameId) →
      deleteLoop iid (pre ++ r :: post) idx = some (idx + pre.length)
  | [], idx, _ => by simp [deleteLoop, hr]
  | x :: pre, idx, hpre => by
    have h1 : x.IId.NameId ≠ iid.NameId := hpre x (List.mem_cons_self _ _)
    have h2 := deleteLoop_first iid r post hr pre (idx + 1)
      (fun y hy => hpre y (List.mem_cons_of_mem _ hy))
    simp [deleteLoop, h1, h2]
    omega

/-- A list with a record named `n` splits at the first such record. -/
theorem split_at_first (n : String) :
    ∀ l : List SecurityInfo, (∃ r ∈ l, r.IId.NameId = n) →
      ∃ pre r post, l = pre ++ r :: post ∧ r.IId.NameId = n ∧ ∀ x ∈ pre, x.IId.NameId ≠ n
  | [], h => by
    obtain ⟨r, hr, _⟩ := h
    cases hr
  | x :: rest, h => by
    by_cases hx : x.IId.NameId = n
    · exact ⟨[], x, rest, rfl, hx, by simp⟩
    · have hrest : ∃ r ∈ rest, r.IId.NameId = n := by
        obtain ⟨r, hr, hn⟩ := h
        rcases List.mem_cons.mp hr with rfl | hr'
        · exact absurd hn hx
        · exact ⟨r, hr', hn⟩
      obtain ⟨pre, r, post, hl, hn, hpre⟩ := split_at_first n rest hrest
      refine ⟨x :: pre, r, post, by simp [hl], hn, ?_⟩
      intro y hy
      rcases List.mem_cons.mp hy with rfl | hy'
      · exact hx
      · exact hpre y hy'

theorem take_drop_middle (pre post : List SecurityInfo) (r : SecurityInfo) :
    (pre ++ r :: post).take (0 + pre.length) ++ (pre ++ r :: post).drop (0 + pre.length + 1)
      = pre ++ post := by
  simp

/-- What `DeleteSecurity` does on a sequence split at the first record named
as asked. -/
theorem DeleteSecurity_split (h : MockSecurityHandler) (reg : Registry) (iid : IID)
    (pre post : List SecurityInfo) (r : SecurityInfo)
    (hseq : reg h.MockName = some (pre ++ r :: post))
    (hr : r.IId.NameId = iid.NameId) (hpre : ∀ x ∈ pre, x.IId.NameId ≠ iid.NameId) :
    (DeleteSecurity h reg iid).val = true ∧ (DeleteSecurity h reg iid).err = none ∧
      (DeleteSecurity h reg iid).reg = Registry.set reg h.MockName (pre ++ post) := by
  have hloop := deleteLoop_first iid r post hr pre 0 hpre
  have htd := take_drop_middle pre post r
  simp only [Nat.zero_add] at hloop htd
  refine ⟨?_, ?_, ?_⟩ <;> simp [DeleteSecurity, ListSecurity, hseq, hloop]

/-- What `DeleteSecurity` does when no record of the instance has the name. -/
theorem DeleteSecurity_none (h : MockSecurityHandler) (reg : Registry) (iid : IID)
    (habs : ∀ r ∈ (reg h.MockName).getD [], r.IId.NameId ≠ iid.NameId) :
    (DeleteSecurity h reg iid).val = false ∧ (DeleteSecurity h reg iid).err = none ∧
      (DeleteSecurity h reg iid).reg = reg := by
  cases hm : reg h.MockName with
  | none => simp [DeleteSecurity, ListSecurity, hm, deleteLoop]
  | some seq =>
    rw [hm] at habs
    have hloop := deleteLoop_eq_none iid seq 0 habs
    simp [DeleteSecurity, ListSecurity, hm, hloop]

/-- The registry entry of the handler's instance after `CreateSecurity`. -/
theorem CreateSecurity_reg_same (h : MockSecurityHandler) (reg : Registry)
    (req : SecurityReqInfo) :
    (CreateSecurity h reg req).reg h.MockName
      = some ((reg h.MockName).getD [] ++ [(CreateSecurity h reg req).val]) := by
  simp [CreateSecurity, Registry.set]

/-- The record `CreateSecurity` returns. -/
theorem CreateSecurity_val (h : MockSecurityHandler) (reg : Registry)
    (req : SecurityReqInfo) :
    (CreateSecurity h reg req).val
      = ⟨⟨req.IId.NameId, req.IId.NameId⟩, req.VpcIID, req.Direction, req.SecurityRules, none⟩ :=
  rfl

/-- In a reachable registry every stored record has its system id equal to its
name. -/
theorem Reachable.systemId_eq_nameId {reg : Registry} (hreach : Reachable reg) :
    ∀ (m : String) (seq : List SecurityInfo), reg m = some seq →
      ∀ r ∈ seq, r.IId.SystemId = r.IId.NameId := by
  induction hreach with
  | init =>
    intro m seq hm
    simp [Registry.init] at hm
  | @create h req reg _ ih =>
    intro m seq hm r hr
    by_cases hmk : m = h.MockName
    · subst hmk
      rw [CreateSecurity_reg_same] at hm
      injection hm with hm
      subst hm
      rcases List.mem_append.mp hr with hold | hnew
      · cases hold0 : reg h.MockName with
        | none => simp [hold0] at hold
        | some seq0 =>
          rw [hold0] at hold
          exact ih h.MockName seq0 hold0 r hold
      · rw [List.mem_singleton] at hnew
        subst hnew
        rfl
    · have : (CreateSecurity h reg req).reg m = reg m := by
        simp [CreateSecurity, Registry.set, hmk]
      rw [this] at hm
      exact ih m seq hm r hr
  | @delete h iid reg _ ih =>
    intro m seq hm r hr
    by_cases hex : ∃ x ∈ (reg h.MockName).getD [], x.IId.NameId = iid.NameId
    · obtain ⟨pre, x, post, hl, hx, hpre⟩ := split_at_first iid.NameId _ hex
      cases hold0 : reg h.MockName with
      | none => simp [hold0] at hl
      | some seq0 =>
        rw [hold0] at hl
        simp only [Option.getD_some] at hl
        subst hl
        have hd := (DeleteSecurity_split h reg iid pre post x hold0 hx hpre).2.2
        rw [hd] at hm
        by_cases hmk : m = h.MockName
        · subst hmk
          rw [Registry.set_same] at hm
          injection hm with hm
          subst hm
          refine ih h.MockName _ hold0 r ?_
          rcases List.mem_append.mp hr with h1 | h1
          · exact List.mem_append_left _ h1
          · exact List.mem_append_right _ (List.mem_cons_of_mem _ h1)
        · rw [Registry.set_other reg hmk] at hm
          exact ih m seq hm r hr
    · have habs : ∀ r ∈ (reg h.MockName).getD [], r.IId.NameId ≠ iid.NameId := by
        intro y hy hn
        exact hex ⟨y, hy, hn⟩
      have hd := (DeleteSecurity_none h reg iid habs).2.2
      rw [hd] at hm
      exact ih m seq hm r hr

theorem ListPublicIP_foldl (items : List Address) :
    ∀ arr : List PublicIPInfo, items.foldl listPublicIPBody arr = arr := by
  induction items with
  | nil => intro arr; rfl
  | cons item rest ih =>
    intro arr
    simp only [List.foldl_cons]
    exact ih _

/-! ## Mock backend: the operations' contracts -/

/-- C1: when the sequence of the handler's instance holds a record named
`iid.NameId`, `DeleteSecurity` returns `(true, nil)` and the instance's new
sequence is the old one without the first record of that name: the records
before it (`pre`, none of them so named) and after it (`post`) stay, in order. -/
theorem DeleteSecurity_present (h : MockSecurityHandler) (reg : Registry) (iid : IID)
    (seq : List SecurityInfo) (hseq : reg h.MockName = some seq)
    (hmem : ∃ r ∈ seq, r.IId.NameId = iid.NameId) :
    ∃ pre r post, seq = pre ++ r :: post ∧ r.IId.NameId = iid.NameId ∧
      (∀ x ∈ pre, x.IId.NameId ≠ iid.NameId) ∧
      (DeleteSecurity h reg iid).val = true ∧ (DeleteSecurity h reg iid).err = none ∧
      (DeleteSecurity h reg iid).reg h.MockName = some (pre ++ post) := by
  obtain ⟨pre, r, post, hl, hr, hpre⟩ := split_at_first iid.NameId seq hmem
  subst hl
  obtain ⟨hv, he, hg⟩ := DeleteSecurity_split h reg iid pre post r hseq hr hpre
  refine ⟨pre, r, post, rfl, hr, hpre, hv, he, ?_⟩
  rw [hg, Registry.set_same]

/-- Instance `m1` holds `sg-2, sg-1, sg-2, sg-1`; deleting `sg-1` takes out the
record at index 1 and nothing else. -/
theorem DeleteSecurity_present_witness :
    (∃ pre r post, [rec2, rec1, rec2, rec1b] = pre ++ r :: post ∧ r.IId.NameId = "sg-1" ∧
      (∀ x ∈ pre, x.IId.NameId ≠ "sg-1") ∧
      (DeleteSecurity ⟨"m1"⟩ regFour ⟨"sg-1", ""⟩).val = true ∧
      (DeleteSecurity ⟨"m1"⟩ regFour ⟨"sg-1", ""⟩).err = none ∧
      (DeleteSecurity ⟨"m1"⟩ regFour ⟨"sg-1", ""⟩).reg "m1" = some (pre ++ post)) ∧
    (DeleteSecurity ⟨"m1"⟩ regFour ⟨"sg-1", ""⟩).reg "m1" = some [rec2, rec2, rec1b] :=
  ⟨DeleteSecurity_present ⟨"m1"⟩ regFour ⟨"sg-1", ""⟩ [rec2, rec1, rec2, rec1b] (by decide)
      ⟨rec1, by decide, by decide⟩,
    by decide⟩

/-- C2, as the spec states it, fails: instance `m1` already holds a record
named `sg-1`, and `CreateSecurity` of another `sg-1` returns a nil error and
changes the instance's sequence, which then holds two records of that name. -/
theorem CreateSecurity_conflict_counterexample :
    regOne "m1" = some [rec1] ∧ rec1.IId.NameId = sg1.IId.NameId ∧
      (CreateSecurity ⟨"m1"⟩ regOne sg1).err = none ∧
      (CreateSecurity ⟨"m1"⟩ regOne sg1).reg "m1" = some [rec1, rec1] ∧
      (CreateSecurity ⟨"m1"⟩ regOne sg1).reg "m1" ≠ regOne "m1" := by
  decide

/-- C2, amended: when the instance's sequence already holds a record named as
the request, `CreateSecurity` returns a nil error and a record of that name,
and the instance's new sequence is the old one, unchanged and in place,
followed by the returned record. -/
theorem CreateSecurity_duplicate (h : MockSecurityHandler) (reg : Registry)
    (req : SecurityReqInfo) (seq : List SecurityInfo) (hseq : reg h.MockName = some seq)
    (_hdup : ∃ r ∈ seq, r.IId.NameId = req.IId.NameId) :
    (CreateSecurity h reg req).err = none ∧
      (CreateSecurity h reg req).val.IId.NameId = req.IId.NameId ∧
      (CreateSecurity h reg req).reg h.MockName
        = some (seq ++ [(CreateSecurity h reg req).val]) := by
  refine ⟨rfl, rfl, ?_⟩
  rw [CreateSecurity_reg_same, hseq]
  rfl

/-- Creating `sg-1` a second time on instance `m1`. -/
theorem CreateSecurity_duplicate_witness :
    (CreateSecurity ⟨"m1"⟩ regOne sg1).err = none ∧
      (CreateSecurity ⟨"m1"⟩ regOne sg1).val.IId.NameId = "sg-1" ∧
      (CreateSecurity ⟨"m1"⟩ regOne sg1).reg "m1"
        = some ([rec1] ++ [(CreateSecurity ⟨"m1"⟩ regOne sg1).val]) :=
  CreateSecurity_duplicate ⟨"m1"⟩ regOne sg1 [rec1] (by decide) ⟨rec1, by decide, by decide⟩

/-- C3: in a registry reachable from the empty one by `CreateSecurity` and
`DeleteSecurity` calls, `CreateSecurity(req)` followed by
`GetSecurity(req.IId)` on the same handler returns a nil error and a record
whose `IId` (name and system id) is the `IId` of the record that
`CreateSecurity` returned. -/
theorem CreateSecurity_then_GetSecurity_IId (reg : Registry) (hreach : Reachable reg)
    (h : MockSecurityHandler) (req : SecurityReqInfo) :
    (GetSecurity h (CreateSecurity h reg req).reg req.IId).err = none ∧
      (GetSecurity h (CreateSecurity h reg req).reg req.IId).val.IId
        = (CreateSecurity h reg req).val.IId := by
  have hnew := CreateSecurity_reg_same h reg req
  have hinv := Reachable.systemId_eq_nameId (Reachable.create h req hreach) h.MockName _ hnew
  have hex : ∃ r ∈ (reg h.MockName).getD [] ++ [(CreateSecurity h reg req).val],
      r.IId.NameId = req.IId.NameId :=
    ⟨(CreateSecurity h reg req).val, List.mem_append_right _ (List.mem_singleton_self _), rfl⟩
  obtain ⟨pre, r, post, hl, hr, hpre⟩ := split_at_first req.IId.NameId _ hex
  have hloop := getLoop_first req.IId r post hr pre hpre
  have hsys : r.IId.SystemId = r.IId.NameId :=
    hinv r (by rw [hl]; exact List.mem_append_right _ (List.mem_cons_self _ _))
  have hid : r.IId = (CreateSecurity h reg req).val.IId := by
    rw [CreateSecurity_val]
    cases hri : r.IId with
    | mk nm sys =>
      rw [hri] at hsys hr
      simp only at hsys hr
      rw [hsys, hr]
  rw [hl] at hnew
  refine ⟨?_, ?_⟩
  · simp only [GetSecurity, ListSecurity, hnew, hloop]
  · simp only [GetSecurity, ListSecurity, hnew, hloop]
    exact hid

/-- After `sg-1` was created on `m1` (a reachable registry), a second
`CreateSecurity` of `sg-1` followed by `GetSecurity` returns the identity
`sg-1/sg-1` that the second call returned. -/
theorem CreateSecurity_then_GetSecurity_IId_witness :
    (GetSecurity ⟨"m1"⟩ (CreateSecurity ⟨"m1"⟩ regOne sg1).reg sg1.IId).err = none ∧
      (GetSecurity ⟨"m1"⟩ (CreateSecurity ⟨"m1"⟩ regOne sg1).reg sg1.IId).val.IId
        = (CreateSecurity ⟨"m1"⟩ regOne sg1).val.IId :=
  CreateSecurity_then_GetSecurity_IId regOne (Reachable.create ⟨"m1"⟩ sg1 Reachable.init)
    ⟨"m1"⟩ sg1

/-- C4: for handlers `ha` and `hb` with different instance names, a
`CreateSecurity` or a `DeleteSecurity` on `ha` leaves the registry entry of
`hb` unchanged, and `ListSecurity` and `GetSecurity` (for every `j`) on `hb`
return the same record(s) and error after the call as before it. -/
theorem mock_instances_isolated (reg : Registry) (ha hb : MockSecurityHandler)
    (hab : ha.MockName ≠ hb.MockName) (req : SecurityReqInfo) (iid : IID) :
    ((CreateSecurity ha reg req).reg hb.MockName = reg hb.MockName ∧
      (ListSecurity hb (CreateSecurity ha reg req).reg).val = (ListSecurity hb reg).val ∧
      (ListSecurity hb (CreateSecurity ha reg req).reg).err = (ListSecurity hb reg).err ∧
      ∀ j : IID,
        (GetSecurity hb (CreateSecurity ha reg req).reg j).val = (GetSecurity hb reg j).val ∧
        (GetSecurity hb (CreateSecurity ha reg req).reg j).err = (GetSecurity hb reg j).err) ∧
    ((DeleteSecurity ha reg iid).reg hb.MockName = reg hb.MockName ∧
      (ListSecurity hb (DeleteSecurity ha reg iid).reg).val = (ListSecurity hb reg).val ∧
      (ListSecurity hb (DeleteSecurity ha reg iid).reg).err = (ListSecurity hb reg).err ∧
      ∀ j : IID,
        (GetSecurity hb (DeleteSecurity ha reg iid).reg j).val = (GetSecurity hb reg j).val ∧
        (GetSecurity hb (DeleteSecurity ha reg iid).reg j).err = (GetSecurity hb reg j).err) := by
  have hba : hb.MockName ≠ ha.MockName := fun e => hab e.symm
  have frame : ∀ reg' : Registry, reg' hb.MockName = reg hb.MockName →
      (reg' hb.MockName = reg hb.MockName ∧
        (ListSecurity hb reg').val = (ListSecurity hb reg).val ∧
        (ListSecurity hb reg').err = (ListSecurity hb reg).err ∧
        ∀ j : IID, (GetSecurity hb reg' j).val = (GetSecurity hb reg j).val ∧
          (GetSecurity hb reg' j).err = (GetSecurity hb reg j).err) := by
    intro reg' he
    refine ⟨he, ?_, ?_, ?_⟩
    · simp only [ListSecurity, he]
      cases reg hb.MockName <;> rfl
    · simp only [ListSecurity, he]
      cases reg hb.MockName <;> rfl
    · intro j
      simp only [GetSecurity, ListSecurity, he]
      cases reg hb.MockName with
      | none => exact ⟨rfl, rfl⟩
      | some seq =>
        simp only
        cases getLoop j seq <;> exact ⟨rfl, rfl⟩
  refine ⟨frame _ ?_, frame _ ?_⟩
  · simp [CreateSecurity, Registry.set, hba]
  · by_cases hex : ∃ x ∈ (reg ha.MockName).getD [], x.IId.NameId = iid.NameId
    · obtain ⟨pre, x, post, hl, hx, hpre⟩ := split_at_first iid.NameId _ hex
      cases hold0 : reg ha.MockName with
      | none => simp [hold0] at hl
      | some seq0 =>
        rw [hold0] at hl
        simp only [Option.getD_some] at hl
        subst hl
        rw [(DeleteSecurity_split ha reg iid pre post x hold0 hx hpre).2.2]
        exact Registry.set_other reg hba _
    · have habs : ∀ r ∈ (reg ha.MockName).getD [], r.IId.NameId ≠ iid.NameId :=
        fun y hy hn => hex ⟨y, hy, hn⟩
      rw [(DeleteSecurity_none ha reg iid habs).2.2]

/-- Creating `sg-2` or deleting `sg-1` on instance `m2` is not seen by `m1`,
which still lists its one record. -/
theorem mock_instances_isolated_witness :
    (((CreateSecurity ⟨"m2"⟩ regOne sg2).reg "m1" = regOne "m1" ∧
      (ListSecurity ⟨"m1"⟩ (CreateSecurity ⟨"m2"⟩ regOne sg2).reg).val
        = (ListSecurity ⟨"m1"⟩ regOne).val ∧
      (ListSecurity ⟨"m1"⟩ (CreateSecurity ⟨"m2"⟩ regOne sg2).reg).err
        = (ListSecurity ⟨"m1"⟩ regOne).err ∧
      ∀ j : IID,
        (GetSecurity ⟨"m1"⟩ (CreateSecurity ⟨"m2"⟩ regOne sg2).reg j).val
          = (GetSecurity ⟨"m1"⟩ regOne j).val ∧
        (GetSecurity ⟨"m1"⟩ (CreateSecurity ⟨"m2"⟩ regOne sg2).reg j).err
          = (GetSecurity ⟨"m1"⟩ regOne j).err) ∧
    ((DeleteSecurity ⟨"m2"⟩ regOne ⟨"sg-1", ""⟩).reg "m1" = regOne "m1" ∧
      (ListSecurity ⟨"m1"⟩ (DeleteSecurity ⟨"m2"⟩ regOne ⟨"sg-1", ""⟩).reg).val
        = (ListSecurity ⟨"m1"⟩ regOne).val ∧
      (ListSecurity ⟨"m1"⟩ (DeleteSecurity ⟨"m2"⟩ regOne ⟨"sg-1", ""⟩).reg).err
        = (ListSecurity ⟨"m1"⟩ regOne).err ∧
      ∀ j : IID,
        (GetSecurity ⟨"m1"⟩ (DeleteSecurity ⟨"m2"⟩ regOne ⟨"sg-1", ""⟩).reg j).val
          = (GetSecurity ⟨"m1"⟩ regOne j).val ∧
        (GetSecurity ⟨"m1"⟩ (DeleteSecurity ⟨"m2"⟩ regOne ⟨"sg-1", ""⟩).reg j).err
          = (GetSecurity ⟨"m1"⟩ regOne j).err)) ∧
    (ListSecurity ⟨"m1"⟩ (CreateSecurity ⟨"m2"⟩ regOne sg2).reg).val = [rec1] :=
  ⟨mock_instances_isolated regOne ⟨"m2"⟩ ⟨"m1"⟩ (by decide) sg2 ⟨"sg-1", ""⟩, by decide⟩

/-- C5: `GetSecurity` returns a non-nil error exactly when no record of the
instance's sequence is named `iid.NameId`, and that error is the
does-not-exist error; otherwise it returns, with a nil error, the first record
of the sequence with that name.  The system id of `iid` is not looked at. -/
theorem GetSecurity_spec (h : MockSecurityHandler) (reg : Registry) (iid : IID) :
    ((GetSecurity h reg iid).err ≠ none ↔
        ∀ r ∈ (reg h.MockName).getD [], r.IId.NameId ≠ iid.NameId) ∧
      ((∀ r ∈ (reg h.MockName).getD [], r.IId.NameId ≠ iid.NameId) →
        (GetSecurity h reg iid).err = some notExistError) ∧
      (∀ pre r post, (reg h.MockName).getD [] = pre ++ r :: post →
        r.IId.NameId = iid.NameId → (∀ x ∈ pre, x.IId.NameId ≠ iid.NameId) →
        (GetSecurity h reg iid).val = r ∧ (GetSecurity h reg iid).err = none) ∧
      (∀ sid : String, GetSecurity h reg ⟨iid.NameId, sid⟩ = GetSecurity h reg iid) := by
  have hget : ∀ j : IID, ∀ res : Option SecurityInfo,
      getLoop j ((reg h.MockName).getD []) = res →
      GetSecurity h reg j = match res with
        | some info => { val := info, err := none, reg := reg }
        | none => { val := SecurityInfo.zero, err := some notExistError, reg := reg } := by
    intro j res hres
    subst hres
    cases hm : reg h.MockName with
    | none => simp [GetSecurity, ListSecurity, hm, getLoop]
    | some seq =>
      simp only [GetSecurity, ListSecurity, hm, Option.getD_some]
  have habsent : (∀ r ∈ (reg h.MockName).getD [], r.IId.NameId ≠ iid.NameId) →
      (GetSecurity h reg iid).err = some notExistError := by
    intro habs
    rw [hget iid none (getLoop_eq_none iid _ habs)]
  have hpresent : ∀ pre r post, (reg h.MockName).getD [] = pre ++ r :: post →
      r.IId.NameId = iid.NameId → (∀ x ∈ pre, x.IId.NameId ≠ iid.NameId) →
      (GetSecurity h reg iid).val = r ∧ (GetSecurity h reg iid).err = none := by
    intro pre r post hl hr hpre
    have hloop := getLoop_first iid r post hr pre hpre
    rw [← hl] at hloop
    rw [hget iid (some r) hloop]
    exact ⟨rfl, rfl⟩
  refine ⟨⟨?_, ?_⟩, habsent, hpresent, ?_⟩
  · intro herr r hr hn
    obtain ⟨pre, x, post, hl, hx, hpre⟩ :=
      split_at_first iid.NameId _ ⟨r, hr, hn⟩
    exact herr (hpresent pre x post hl hx hpre).2
  · intro habs
    rw [habsent habs]
    simp
  · intro sid
    have hcongr : ∀ l : List SecurityInfo,
        getLoop ⟨iid.NameId, sid⟩ l = getLoop iid l := by
      intro l
      induction l with
      | nil => rfl
      | cons info rest ih => simp only [getLoop, ih]
    rw [hget ⟨iid.NameId, sid⟩ _ (hcongr _), hget iid _ rfl]

/-- C6: when no record of the instance's sequence is named `iid.NameId` (also
when the instance has no entry in the registry), `DeleteSecurity` returns
`(false, nil)` and leaves the whole registry as it was. -/
theorem DeleteSecurity_absent (h : MockSecurityHandler) (reg : Registry) (iid : IID)
    (habs : ∀ r ∈ (reg h.MockName).getD [], r.IId.NameId ≠ iid.NameId) :
    (DeleteSecurity h reg iid).val = false ∧ (DeleteSecurity h reg iid).err = none ∧
      (DeleteSecurity h reg iid).reg = reg :=
  DeleteSecurity_none h reg iid habs

/-- Deleting `sg-2` from instance `m1`, which holds `sg-1` only, and deleting
`sg-1` from instance `m9`, which has no entry. -/
theorem DeleteSecurity_absent_witness :
    ((DeleteSecurity ⟨"m1"⟩ regOne ⟨"sg-2", ""⟩).val = false ∧
      (DeleteSecurity ⟨"m1"⟩ regOne ⟨"sg-2", ""⟩).err = none ∧
      (DeleteSecurity ⟨"m1"⟩ regOne ⟨"sg-2", ""⟩).reg = regOne) ∧
    regOne "m9" = none ∧
    ((DeleteSecurity ⟨"m9"⟩ regOne ⟨"sg-1", ""⟩).val = false ∧
      (DeleteSecurity ⟨"m9"⟩ regOne ⟨"sg-1", ""⟩).err = none ∧
      (DeleteSecurity ⟨"m9"⟩ regOne ⟨"sg-1", ""⟩).reg = regOne) :=
  ⟨DeleteSecurity_absent ⟨"m1"⟩ regOne ⟨"sg-2", ""⟩ (by decide),
    by decide,
    DeleteSecurity_absent ⟨"m9"⟩ regOne ⟨"sg-1", ""⟩ (by decide)⟩

/-- C7: `ListSecurity` returns a nil error, leaves the registry unchanged and
returns the instance's stored sequence in stored order; when the instance has
no entry in the registry it returns the empty sequence. -/
theorem ListSecurity_spec (h : MockSecurityHandler) (reg : Registry) :
    (ListSecurity h reg).err = none ∧ (ListSecurity h reg).reg = reg ∧
      (∀ seq, reg h.MockName = some seq → (ListSecurity h reg).val = seq) ∧
      (reg h.MockName = none → (ListSecurity h reg).val = []) := by
  refine ⟨ListSecurity_err h reg, ListSecurity_reg h reg, ?_, ?_⟩
  · intro seq hseq
    rw [ListSecurity_val, hseq]
    rfl
  · intro hnone
    rw [ListSecurity_val, hnone]
    rfl

/-- C8: `CreateSecurity` returns a nil error and a record `r` whose name and
system id are both the requested name, whose `VpcIID`, `Direction` and
`SecurityRules` are the request's and whose `KeyValueList` is nil; the
instance's new sequence is the old one (empty when the instance had no entry)
with `r` appended. -/
theorem CreateSecurity_spec (h : MockSecurityHandler) (reg : Registry)
    (req : SecurityReqInfo) :
    (CreateSecurity h reg req).err = none ∧
      (CreateSecurity h reg req).val.IId.NameId = req.IId.NameId ∧
      (CreateSecurity h reg req).val.IId.SystemId = req.IId.NameId ∧
      (CreateSecurity h reg req).val.VpcIID = req.VpcIID ∧
      (CreateSecurity h reg req).val.Direction = req.Direction ∧
      (CreateSecurity h reg req).val.SecurityRules = req.SecurityRules ∧
      (CreateSecurity h reg req).val.KeyValueList = none ∧
      (CreateSecurity h reg req).reg h.MockName
        = some ((reg h.MockName).getD [] ++ [(CreateSecurity h reg req).val]) :=
  ⟨rfl, rfl, rfl, rfl, rfl, rfl, rfl, CreateSecurity_reg_same h reg req⟩

/-! ## GCP provider backend -/

/-- C9: the provider answers the listing with one address item, and
`ListPublicIP` returns the empty sequence with a nil error; it does so for
every successful listing response, whatever its items. -/
theorem ListPublicIP_returns_no_item :
    ListPublicIP (.ok ⟨[addr1]⟩) = .returned [] none ∧
      ∀ list : AddressList, ListPublicIP (.ok list) = .returned [] none := by
  refine ⟨rfl, ?_⟩
  intro list
  simp only [ListPublicIP, ListPublicIP_foldl]

/-- C10: on a backend that holds no address at all, `DeletePublicIP` of
`ip-1` returns `(true, nil)`; it returns `(true, nil)` for every backend state
and name, and the backend is as it was. -/
theorem DeletePublicIP_always_true :
    DeletePublicIP [] "ip-1" = ((true, none), []) ∧
      ∀ (backend : Backend) (publicIPID : String),
        DeletePublicIP backend publicIPID = ((true, none), backend) :=
  ⟨rfl, fun _ _ => rfl⟩

/-! ## Lemmas on sequences of calls -/

theorem GetSecurity_reg (h : MockSecurityHandler) (reg : Registry) (iid : IID) :
    (GetSecurity h reg iid).reg = reg := by
  cases hm : reg h.MockName with
  | none => simp [GetSecurity, ListSecurity, hm, getLoop]
  | some seq =>
    simp only [GetSecurity, ListSecurity, hm]
    cases getLoop iid seq <;> rfl

/-- What one call does to the entry of an instance: it appends the created
record, leaves the entry as it was, or takes one record out. -/
theorem Op.run_entry (op : Op) (reg : Registry) (m : String) :
    (∃ h req, op = .create h req ∧ m = h.MockName ∧
        op.run reg m = some ((reg m).getD [] ++ [(CreateSecurity h reg req).val])) ∨
      op.run reg m = reg m ∨
      (∃ pre r post, reg m = some (pre ++ r :: post) ∧ op.run reg m = some (pre ++ post)) := by
  cases op with
  | create h req =>
    by_cases hm : m = h.MockName
    · subst hm
      exact Or.inl ⟨h, req, rfl, rfl, CreateSecurity_reg_same h reg req⟩
    · refine Or.inr (Or.inl ?_)
      simp [Op.run, CreateSecurity, Registry.set, hm]
  | list h =>
    refine Or.inr (Or.inl ?_)
    simp only [Op.run, ListSecurity_reg]
  | get h iid =>
    refine Or.inr (Or.inl ?_)
    simp only [Op.run, GetSecurity_reg]
  | delete h iid =>
    by_cases hex : ∃ x ∈ (reg h.MockName).getD [], x.IId.NameId = iid.NameId
    · obtain ⟨pre, x, post, hl, hx, hpre⟩ := split_at_first iid.NameId _ hex
      cases hold0 : reg h.MockName with
      | none => simp [hold0] at hl
      | some seq0 =>
        rw [hold0] at hl
        simp only [Option.getD_some] at hl
        subst hl
        have hd := (DeleteSecurity_split h reg iid pre post x hold0 hx hpre).2.2
        by_cases hm : m = h.MockName
        · subst hm
          refine Or.inr (Or.inr ⟨pre, x, post, hold0, ?_⟩)
          simp only [Op.run, hd, Registry.set_same]
        · refine Or.inr (Or.inl ?_)
          simp only [Op.run, hd]
          exact Registry.set_other reg hm _
    · have habs : ∀ r ∈ (reg h.MockName).getD [], r.IId.NameId ≠ iid.NameId :=
        fun y hy hn => hex ⟨y, hy, hn⟩
      refine Or.inr (Or.inl ?_)
      simp only [Op.run, (DeleteSecurity_none h reg iid habs).2.2]

/-- A property that every created record has holds of every stored record
after any sequence of calls, when it held of the stored records before. -/
theorem runOps_stored (P : SecurityInfo → Prop) :
    ∀ (ops : List Op) (reg : Registry),
      (∀ op ∈ ops, ∀ h req, op = Op.create h req →
        ∀ reg' : Registry, P (CreateSecurity h reg' req).val) →
      (∀ m seq, reg m = some seq → ∀ r ∈ seq, P r) →
      ∀ m seq, runOps ops reg m = some seq → ∀ r ∈ seq, P r
  | [], reg, _, hinv => hinv
  | op :: ops, reg, hops, hinv => by
    refine runOps_stored P ops (op.run reg)
      (fun o ho => hops o (List.mem_cons_of_mem _ ho)) ?_
    intro m seq hm r hr
    rcases Op.run_entry op reg m with ⟨h, req, hop, _, hnew⟩ | hsame | ⟨pre, x, post, hold, hnew⟩
    · rw [hnew] at hm
      injection hm with hm
      subst hm
      rcases List.mem_append.mp hr with hin | hin
      · cases hold0 : reg m with
        | none => simp [hold0] at hin
        | some seq0 =>
          rw [hold0] at hin
          exact hinv m seq0 hold0 r hin
      · rw [List.mem_singleton] at hin
        subst hin
        exact hops op (List.mem_cons_self _ _) h req hop reg
    · rw [hsame] at hm
      exact hinv m seq hm r hr
    · rw [hnew] at hm
      injection hm with hm
      subst hm
      refine hinv m _ hold r ?_
      rcases List.mem_append.mp hr with hin | hin
      · exact List.mem_append_left _ hin
      · exact List.mem_append_right _ (List.mem_cons_of_mem _ hin)

/-! ## Lemmas on `strings.Split` -/

/-- The pieces end in a last piece without the separator, which is the whole
input when it is the only piece and otherwise what follows the input's last
separator. -/
theorem splitChars_last (sep : Char) :
    ∀ cs : List Char, ∃ segs last, splitChars sep cs = segs ++ [last] ∧ sep ∉ last ∧
      ((segs = [] ∧ cs = last) ∨ (segs ≠ [] ∧ ∃ pre, cs = pre ++ sep :: last))
  | [] => ⟨[], [], rfl, by simp, Or.inl ⟨rfl, rfl⟩⟩
  | c :: cs => by
    obtain ⟨segs, last, hsplit, hlast, hcs⟩ := splitChars_last sep cs
    by_cases hc : c = sep
    · refine ⟨[] :: segs, last, by simp [splitChars, hc, hsplit], hlast, Or.inr ⟨by simp, ?_⟩⟩
      rcases hcs with ⟨_, hw⟩ | ⟨_, pre, hw⟩
      · exact ⟨[], by simp [hc, hw]⟩
      · exact ⟨c :: pre, by simp [hw]⟩
    · cases segs with
      | nil =>
        rcases hcs with ⟨_, hw⟩ | ⟨hne, _⟩
        · refine ⟨[], c :: last, by simp [splitChars, hc, hsplit], ?_, Or.inl ⟨rfl, by rw [hw]⟩⟩
          intro hmem
          rcases List.mem_cons.mp hmem with h1 | h1
          · exact hc h1.symm
          · exact hlast h1
        · exact absurd rfl hne
      | cons s0 ss =>
        rcases hcs with ⟨hnil, _⟩ | ⟨_, pre, hw⟩
        · cases hnil
        · exact ⟨(c :: s0) :: ss, last, by simp [splitChars, hc, hsplit], hlast,
            Or.inr ⟨by simp, c :: pre, by simp [hw]⟩⟩

/-- The index `len(vmArr)-1` of `strings.Split`'s result is in range and holds
the last piece. -/
theorem strings.Split_last (s : String) (sep : Char) :
    ∃ last : List Char,
      (strings.Split s sep)[(strings.Split s sep).length - 1]? = some (String.mk last) ∧
      sep ∉ last ∧ (s.data = last ∨ ∃ pre, s.data = pre ++ sep :: last) := by
  obtain ⟨segs, last, hsplit, hlast, hcs⟩ := splitChars_last sep s.data
  refine ⟨last, ?_, hlast, ?_⟩
  · simp [strings.Split, hsplit]
  · rcases hcs with ⟨_, hw⟩ | ⟨_, pre, hw⟩
    · exact Or.inl hw
    · exact Or.inr ⟨pre, hw⟩

/-! ## Lemmas on `GetPublicIP` -/

theorem GetPublicIP_users_nil (info : Address)
    (marshalJSON : Address → Except String RawMapping) (raw : RawMapping)
    (hraw : marshalJSON info = .ok raw) (hu : info.Users = none) :
    GetPublicIP (.ok info) marshalJSON
      = .returned { Name := info.Name, PublicIP := info.Address, OwnedVMID := "",
                    Status := info.Status, KeyValueList := some (GetKeyValueList raw) }
          none := by
  simp [GetPublicIP, hraw, hu, PublicIPInfo.zero]

theorem GetPublicIP_users_empty (info : Address)
    (marshalJSON : Address → Except String RawMapping) (raw : RawMapping)
    (hraw : marshalJSON info = .ok raw) (hu : info.Users = some []) :
    GetPublicIP (.ok info) marshalJSON = .panicked indexOutOfRange := by
  simp [GetPublicIP, hraw, hu]

theorem GetPublicIP_users_cons (info : Address)
    (marshalJSON : Address → Except String RawMapping) (raw : RawMapping)
    (u : String) (us : List String)
    (hraw : marshalJSON info = .ok raw) (hu : info.Users = some (u :: us)) :
    ∃ last : List Char,
      GetPublicIP (.ok info) marshalJSON
        = .returned { Name := info.Name, PublicIP := info.Address,
                      OwnedVMID := String.mk last, Status := info.Status,
                      KeyValueList := some (GetKeyValueList raw) }
            none ∧
      '/' ∉ last ∧ (u.data = last ∨ ∃ pre, u.data = pre ++ '/' :: last) := by
  obtain ⟨last, hidx, hlast, hu0⟩ := strings.Split_last u '/'
  refine ⟨last, ?_, hlast, hu0⟩
  simp [GetPublicIP, hraw, hu, hidx, PublicIPInfo.zero]

/-! ## Mock backend: read-after-write and the stored records -/

/-- C14: when no record of the instance's sequence is named as the request,
`CreateSecurity(req)` followed by `GetSecurity(req.IId)` on the same handler
returns, with a nil error, the very record that `CreateSecurity` returned:
identity `n/n` for the requested name `n`, and the requested `VpcIID`,
`Direction` and `SecurityRules`. -/
theorem CreateSecurity_then_GetSecurity_record (h : MockSecurityHandler) (reg : Registry)
    (req : SecurityReqInfo)
    (habs : ∀ r ∈ (reg h.MockName).getD [], r.IId.NameId ≠ req.IId.NameId) :
    (GetSecurity h (CreateSecurity h reg req).reg req.IId).err = none ∧
      (GetSecurity h (CreateSecurity h reg req).reg req.IId).val
        = (CreateSecurity h reg req).val ∧
      (GetSecurity h (CreateSecurity h reg req).reg req.IId).val
        = ⟨⟨req.IId.NameId, req.IId.NameId⟩, req.VpcIID, req.Direction,
            req.SecurityRules, none⟩ := by
  have hnew := CreateSecurity_reg_same h reg req
  have hloop := getLoop_first req.IId (CreateSecurity h reg req).val [] rfl
    ((reg h.MockName).getD []) habs
  refine ⟨?_, ?_, ?_⟩ <;> simp only [GetSecurity, ListSecurity, hnew, hloop]
  rfl

/-- The spec's scenario: `sg-1`, direction inbound, rules `[]`, created on the
fresh instance `m1` and read back. -/
theorem CreateSecurity_then_GetSecurity_record_witness :
    ((GetSecurity ⟨"m1"⟩ (CreateSecurity ⟨"m1"⟩ Registry.init sg1).reg sg1.IId).err = none ∧
      (GetSecurity ⟨"m1"⟩ (CreateSecurity ⟨"m1"⟩ Registry.init sg1).reg sg1.IId).val
        = (CreateSecurity ⟨"m1"⟩ Registry.init sg1).val ∧
      (GetSecurity ⟨"m1"⟩ (CreateSecurity ⟨"m1"⟩ Registry.init sg1).reg sg1.IId).val
        = ⟨⟨sg1.IId.NameId, sg1.IId.NameId⟩, sg1.VpcIID, sg1.Direction,
            sg1.SecurityRules, none⟩) ∧
    (GetSecurity ⟨"m1"⟩ (CreateSecurity ⟨"m1"⟩ Registry.init sg1).reg sg1.IId).val
      = ⟨⟨"sg-1", "sg-1"⟩, ⟨"vpc-1", "vpc-1"⟩, "inbound", some [], none⟩ :=
  ⟨CreateSecurity_then_GetSecurity_record ⟨"m1"⟩ Registry.init sg1 (by decide), by decide⟩

/-- C18: when no record of the instance's sequence is named as the request,
`CreateSecurity(req)` followed by `DeleteSecurity(req.IId)` on the same handler
returns `(true, nil)`; after it `GetSecurity(req.IId)` fails with the
does-not-exist error and `ListSecurity` returns the sequence it returned
before the create, the instance's entry now being that sequence (the empty one
when the instance had no entry). -/
theorem CreateSecurity_then_DeleteSecurity (h : MockSecurityHandler) (reg : Registry)
    (req : SecurityReqInfo)
    (habs : ∀ r ∈ (reg h.MockName).getD [], r.IId.NameId ≠ req.IId.NameId) :
    (DeleteSecurity h (CreateSecurity h reg req).reg req.IId).val = true ∧
      (DeleteSecurity h (CreateSecurity h reg req).reg req.IId).err = none ∧
      (GetSecurity h (DeleteSecurity h (CreateSecurity h reg req).reg req.IId).reg req.IId).err
        = some notExistError ∧
      (ListSecurity h (DeleteSecurity h (CreateSecurity h reg req).reg req.IId).reg).val
        = (ListSecurity h reg).val ∧
      (ListSecurity h (DeleteSecurity h (CreateSecurity h reg req).reg req.IId).reg).err = none ∧
      (DeleteSecurity h (CreateSecurity h reg req).reg req.IId).reg h.MockName
        = some ((reg h.MockName).getD []) := by
  have hnew := CreateSecurity_reg_same h reg req
  obtain ⟨hv, he, hg⟩ := DeleteSecurity_split h (CreateSecurity h reg req).reg req.IId
    ((reg h.MockName).getD []) [] (CreateSecurity h reg req).val hnew rfl habs
  have hentry : (DeleteSecurity h (CreateSecurity h reg req).reg req.IId).reg h.MockName
      = some ((reg h.MockName).getD []) := by
    rw [hg, Registry.set_same, List.append_nil]
  refine ⟨hv, he, ?_, ?_, ListSecurity_err _ _, hentry⟩
  · simp only [GetSecurity, ListSecurity, hentry, getLoop_eq_none req.IId _ habs]
  · rw [ListSecurity_val, ListSecurity_val, hentry]
    rfl

/-- The spec's scenario on the fresh instance `m1`: create `sg-1`, delete it,
and it is gone; the instance's entry is now the empty sequence. -/
theorem CreateSecurity_then_DeleteSecurity_witness :
    ((DeleteSecurity ⟨"m1"⟩ (CreateSecurity ⟨"m1"⟩ Registry.init sg1).reg sg1.IId).val = true ∧
      (DeleteSecurity ⟨"m1"⟩ (CreateSecurity ⟨"m1"⟩ Registry.init sg1).reg sg1.IId).err = none ∧
      (GetSecurity ⟨"m1"⟩
          (DeleteSecurity ⟨"m1"⟩ (CreateSecurity ⟨"m1"⟩ Registry.init sg1).reg sg1.IId).reg
          sg1.IId).err = some notExistError ∧
      (ListSecurity ⟨"m1"⟩
          (DeleteSecurity ⟨"m1"⟩ (CreateSecurity ⟨"m1"⟩ Registry.init sg1).reg sg1.IId).reg).val
        = (ListSecurity ⟨"m1"⟩ Registry.init).val ∧
      (ListSecurity ⟨"m1"⟩
          (DeleteSecurity ⟨"m1"⟩ (CreateSecurity ⟨"m1"⟩ Registry.init sg1).reg sg1.IId).reg).err
        = none ∧
      (DeleteSecurity ⟨"m1"⟩ (CreateSecurity ⟨"m1"⟩ Registry.init sg1).reg sg1.IId).reg "m1"
        = some ((Registry.init "m1").getD [])) ∧
    Registry.init "m1" = none ∧
    (DeleteSecurity ⟨"m1"⟩ (CreateSecurity ⟨"m1"⟩ Registry.init sg1).reg sg1.IId).reg "m1"
      = some [] :=
  ⟨CreateSecurity_then_DeleteSecurity ⟨"m1"⟩ Registry.init sg1 (by decide), by decide, by decide⟩

/-- C17: after any sequence of `CreateSecurity`, `ListSecurity`, `GetSecurity`
and `DeleteSecurity` calls from the empty registry, every stored record has its
system id equal to its name and a nil `KeyValueList`; and one further call,
whatever it is, leaves each instance's sequence as it was, or as it was with
the newly created record appended, or as it was with one record taken out: the
records that stay are the same records in the same order. -/
theorem stored_records_invariant (ops : List Op) :
    (∀ m seq, runOps ops Registry.init m = some seq →
        ∀ r ∈ seq, r.IId.SystemId = r.IId.NameId ∧ r.KeyValueList = none) ∧
      ∀ (op : Op) (m : String),
        (∃ h req, op = .create h req ∧ m = h.MockName ∧
          op.run (runOps ops Registry.init) m
            = some ((runOps ops Registry.init m).getD []
                ++ [(CreateSecurity h (runOps ops Registry.init) req).val])) ∨
        op.run (runOps ops Registry.init) m = runOps ops Registry.init m ∨
        (∃ pre r post, runOps ops Registry.init m = some (pre ++ r :: post) ∧
          op.run (runOps ops Registry.init) m = some (pre ++ post)) := by
  refine ⟨?_, fun op m => Op.run_entry op _ m⟩
  refine runOps_stored (fun r => r.IId.SystemId = r.IId.NameId ∧ r.KeyValueList = none)
    ops Registry.init ?_ ?_
  · intro op _ h req _ reg'
    exact ⟨rfl, rfl⟩
  · intro m seq hm
    simp [Registry.init] at hm

/-- C13, as the spec states it, fails: on the empty registry (reachable by no
call at all) `CreateSecurity` of a request whose name is the empty string
returns a record whose name and system id are both empty, and `GetSecurity`
and `ListSecurity` then return that record. -/
theorem empty_identity_counterexample :
    runOps [] Registry.init "m1" = none ∧ sgEmpty.IId.NameId = "" ∧
      (CreateSecurity ⟨"m1"⟩ (runOps [] Registry.init) sgEmpty).err = none ∧
      (CreateSecurity ⟨"m1"⟩ (runOps [] Registry.init) sgEmpty).val.IId = ⟨"", ""⟩ ∧
      (GetSecurity ⟨"m1"⟩ (runOps [.create ⟨"m1"⟩ sgEmpty] Registry.init) ⟨"", ""⟩).err = none ∧
      (GetSecurity ⟨"m1"⟩ (runOps [.create ⟨"m1"⟩ sgEmpty] Registry.init) ⟨"", ""⟩).val.IId
        = ⟨"", ""⟩ ∧
      (ListSecurity ⟨"m1"⟩ (runOps [.create ⟨"m1"⟩ sgEmpty] Registry.init)).val.map
          (fun r => r.IId) = [⟨"", ""⟩] := by
  decide

/-- C13, amended: after any sequence of calls from the empty registry in which
no `CreateSecurity` asked for the empty name, the record that `CreateSecurity`
returns for a request with a non-empty name, every record that `ListSecurity`
returns and the record that `GetSecurity` returns with a nil error have a
non-empty name and a non-empty system id. -/
theorem returned_identity_nonempty (ops : List Op) (hnamed : ∀ op ∈ ops, op.named = true)
    (h : MockSecurityHandler) :
    (∀ req : SecurityReqInfo, req.IId.NameId ≠ "" →
        (CreateSecurity h (runOps ops Registry.init) req).val.IId.NameId ≠ "" ∧
        (CreateSecurity h (runOps ops Registry.init) req).val.IId.SystemId ≠ "") ∧
      (∀ r ∈ (ListSecurity h (runOps ops Registry.init)).val,
        r.IId.NameId ≠ "" ∧ r.IId.SystemId ≠ "") ∧
      (∀ iid : IID, (GetSecurity h (runOps ops Registry.init) iid).err = none →
        (GetSecurity h (runOps ops Registry.init) iid).val.IId.NameId ≠ "" ∧
        (GetSecurity h (runOps ops Registry.init) iid).val.IId.SystemId ≠ "") := by
  have hstored : ∀ m seq, runOps ops Registry.init m = some seq →
      ∀ r ∈ seq, r.IId.NameId ≠ "" ∧ r.IId.SystemId ≠ "" := by
    refine runOps_stored (fun r => r.IId.NameId ≠ "" ∧ r.IId.SystemId ≠ "")
      ops Registry.init ?_ ?_
    · intro op hop h' req hcreate reg'
      have hn := hnamed op hop
      subst hcreate
      have hne : req.IId.NameId ≠ "" := by simpa [Op.named] using hn
      exact ⟨hne, hne⟩
    · intro m seq hm
      simp [Registry.init] at hm
  refine ⟨fun req hreq => ⟨hreq, hreq⟩, ?_, ?_⟩
  · intro r hr
    rw [ListSecurity_val] at hr
    cases hm : runOps ops Registry.init h.MockName with
    | none => simp [hm] at hr
    | some seq =>
      rw [hm] at hr
      exact hstored h.MockName seq hm r hr
  · intro iid herr
    cases hm : runOps ops Registry.init h.MockName with
    | none => simp [GetSecurity, ListSecurity, hm, getLoop] at herr
    | some seq =>
      cases hloop : getLoop iid seq with
      | none => simp [GetSecurity, ListSecurity, hm, hloop] at herr
      | some r =>
        have hmem := (getLoop_some_name iid seq r hloop).1
        simp only [GetSecurity, ListSecurity, hm, hloop]
        exact hstored h.MockName seq hm r hmem

/-- After `sg-1` and `sg-2` were created on `m1` and `sg-2` was deleted, the
records that the three operations return on `m1` are named. -/
theorem returned_identity_nonempty_witness :
    ((∀ req : SecurityReqInfo, req.IId.NameId ≠ "" →
        (CreateSecurity ⟨"m1"⟩ (runOps [.create ⟨"m1"⟩ sg1, .create ⟨"m1"⟩ sg2,
            .delete ⟨"m1"⟩ ⟨"sg-2", ""⟩] Registry.init) req).val.IId.NameId ≠ "" ∧
        (CreateSecurity ⟨"m1"⟩ (runOps [.create ⟨"m1"⟩ sg1, .create ⟨"m1"⟩ sg2,
            .delete ⟨"m1"⟩ ⟨"sg-2", ""⟩] Registry.init) req).val.IId.SystemId ≠ "") ∧
      (∀ r ∈ (ListSecurity ⟨"m1"⟩ (runOps [.create ⟨"m1"⟩ sg1, .create ⟨"m1"⟩ sg2,
            .delete ⟨"m1"⟩ ⟨"sg-2", ""⟩] Registry.init)).val,
        r.IId.NameId ≠ "" ∧ r.IId.SystemId ≠ "") ∧
      (∀ iid : IID, (GetSecurity ⟨"m1"⟩ (runOps [.create ⟨"m1"⟩ sg1, .create ⟨"m1"⟩ sg2,
            .delete ⟨"m1"⟩ ⟨"sg-2", ""⟩] Registry.init) iid).err = none →
        (GetSecurity ⟨"m1"⟩ (runOps [.create ⟨"m1"⟩ sg1, .create ⟨"m1"⟩ sg2,
            .delete ⟨"m1"⟩ ⟨"sg-2", ""⟩] Registry.init) iid).val.IId.NameId ≠ "" ∧
        (GetSecurity ⟨"m1"⟩ (runOps [.create ⟨"m1"⟩ sg1, .create ⟨"m1"⟩ sg2,
            .delete ⟨"m1"⟩ ⟨"sg-2", ""⟩] Registry.init) iid).val.IId.SystemId ≠ "")) ∧
    (ListSecurity ⟨"m1"⟩ (runOps [.create ⟨"m1"⟩ sg1, .create ⟨"m1"⟩ sg2,
        .delete ⟨"m1"⟩ ⟨"sg-2", ""⟩] Registry.init)).val = [rec1] :=
  ⟨returned_identity_nonempty
      [.create ⟨"m1"⟩ sg1, .create ⟨"m1"⟩ sg2, .delete ⟨"m1"⟩ ⟨"sg-2", ""⟩]
      (by decide) ⟨"m1"⟩,
    by decide⟩

/-! ## GCP provider backend: failures, the mapped record and the normalizer -/

/-- C11, as the spec states it, fails: on the provider failure
`backend unavailable` each of `GetPublicIP`, `ListPublicIP` and
`CreatePublicIP` ends the process through `log.Fatal`, and so does not return
the failure to its caller as an error result. -/
theorem provider_failure_counterexample :
    GetPublicIP (.error "backend unavailable") marshalTwo = .fatal "backend unavailable" ∧
      ListPublicIP (.error "backend unavailable") = .fatal "backend unavailable" ∧
      CreatePublicIP (.ok ()) (.error "backend unavailable") marshalTwo
        = .fatal "backend unavailable" ∧
      (¬ ∃ v e, GetPublicIP (.error "backend unavailable") marshalTwo = .returned v (some e)) ∧
      (¬ ∃ v e, ListPublicIP (.error "backend unavailable") = .returned v (some e)) ∧
      (¬ ∃ v e, CreatePublicIP (.ok ()) (.error "backend unavailable") marshalTwo
        = .returned v (some e)) := by
  refine ⟨rfl, rfl, rfl, ?_, ?_, ?_⟩
  · rintro ⟨v, e, hve⟩
    cases hve
  · rintro ⟨v, e, hve⟩
    cases hve
  · rintro ⟨v, e, hve⟩
    cases hve

/-- C11, amended: on a failure `err` of the provider call (`Addresses.Get` in
`GetPublicIP`, `Addresses.List` in `ListPublicIP`, the `Get` of the
`GetPublicIP` call inside `CreatePublicIP`) the handler operation ends the
process through `log.Fatal` with `err`; and whatever the provider answers, an
operation that does return returns a nil error. -/
theorem provider_failure_is_fatal (err : String)
    (marshalJSON : Address → Except String RawMapping) (insertDo : Except String Unit) :
    GetPublicIP (.error err) marshalJSON = .fatal err ∧
      ListPublicIP (.error err) = .fatal err ∧
      CreatePublicIP insertDo (.error err) marshalJSON = .fatal err ∧
      (∀ getDo v e, GetPublicIP getDo marshalJSON = .returned v e → e = none) ∧
      (∀ listDo v e, ListPublicIP listDo = .returned v e → e = none) ∧
      (∀ getDo v e, CreatePublicIP insertDo getDo marshalJSON = .returned v e → e = none) := by
  have hget : ∀ getDo v e, GetPublicIP getDo marshalJSON = .returned v e → e = none := by
    intro getDo v e hret
    cases getDo with
    | error msg => simp [GetPublicIP] at hret
    | ok info =>
      cases hraw : marshalJSON info with
      | error msg => simp [GetPublicIP, hraw] at hret
      | ok raw =>
        cases hu : info.Users with
        | none =>
          rw [GetPublicIP_users_nil info marshalJSON raw hraw hu] at hret
          injection hret with _ he
          exact he.symm
        | some users =>
          cases users with
          | nil =>
            rw [GetPublicIP_users_empty info marshalJSON raw hraw hu] at hret
            cases hret
          | cons u us =>
            obtain ⟨last, hlast, _⟩ := GetPublicIP_users_cons info marshalJSON raw u us hraw hu
            rw [hlast] at hret
            injection hret with _ he
            exact he.symm
  refine ⟨rfl, rfl, rfl, hget, ?_, ?_⟩
  · intro listDo v e hret
    cases listDo with
    | error msg => simp [ListPublicIP] at hret
    | ok list =>
      simp only [ListPublicIP] at hret
      injection hret with _ he
      exact he.symm
  · intro getDo v e hret
    simp only [CreatePublicIP] at hret
    cases hg : GetPublicIP getDo marshalJSON with
    | fatal msg => simp [hg] at hret
    | panicked msg => simp [hg] at hret
    | returned v' e' =>
      have he' := hget getDo v' e' hg
      subst he'
      simp [hg] at hret
      exact hret.2.symm

/-- C12: the provider answers `Get` with an address whose `Users` is present
and empty, and `GetPublicIP` stops with an index-out-of-range panic instead of
returning a record.  On every other successful response `info` (with a
`MarshalJSON` that succeeds) it returns, with a nil error, a record with
`Name = info.Name`, `PublicIP = info.Address`, `Status = info.Status` and the
normalised raw response as `KeyValueList`; `OwnedVMID` is the empty string when
`info.Users` is nil, and when `info.Users` starts with `u` it is free of `/`
and is `u` itself or what follows the last `/` of `u`. -/
theorem GetPublicIP_maps_response :
    GetPublicIP (.ok addrNoUsers) marshalTwo = .panicked indexOutOfRange ∧
      ∀ (info : Address) (marshalJSON : Address → Except String RawMapping)
        (raw : RawMapping),
        marshalJSON info = .ok raw → info.Users ≠ some [] →
        ∃ r, GetPublicIP (.ok info) marshalJSON = .returned r none ∧
          r.Name = info.Name ∧ r.PublicIP = info.Address ∧ r.Status = info.Status ∧
          r.KeyValueList = some (GetKeyValueList raw) ∧
          (info.Users = none → r.OwnedVMID = "") ∧
          (∀ u us, info.Users = some (u :: us) →
            '/' ∉ r.OwnedVMID.data ∧
            (u.data = r.OwnedVMID.data ∨ ∃ pre, u.data = pre ++ '/' :: r.OwnedVMID.data)) := by
  refine ⟨rfl, ?_⟩
  intro info marshalJSON raw hraw hne
  cases hu : info.Users with
  | none =>
    refine ⟨_, GetPublicIP_users_nil info marshalJSON raw hraw hu, rfl, rfl, rfl, rfl,
      fun _ => rfl, ?_⟩
    intro u us hcons
    cases hcons
  | some users =>
    cases users with
    | nil => exact absurd hu hne
    | cons u us =>
      obtain ⟨last, hret, hlast, hu0⟩ :=
        GetPublicIP_users_cons info marshalJSON raw u us hraw hu
      refine ⟨_, hret, rfl, rfl, rfl, rfl, ?_, ?_⟩
      · intro hnone
        cases hnone
      · intro u' us' hcons
        injection hcons with hcons
        injection hcons with h1 _
        subst h1
        exact ⟨hlast, hu0⟩

/-- C19: the provider answers `Get` with an address whose `Users` is present
and empty; the branch guarded by `users != nil` is taken and `users[0]` is out
of range, so `GetPublicIP` panics, and it does so for every such response.
The other index is in range: splitting any string on `/` gives at least one
piece, so `vmArr[len(vmArr)-1]` exists. -/
theorem GetPublicIP_index_out_of_range :
    addrNoUsers.Users = some [] ∧
      GetPublicIP (.ok addrNoUsers) marshalTwo = .panicked indexOutOfRange ∧
      (∀ (info : Address) (marshalJSON : Address → Except String RawMapping)
        (raw : RawMapping), marshalJSON info = .ok raw → info.Users = some [] →
        GetPublicIP (.ok info) marshalJSON = .panicked indexOutOfRange) ∧
      ∀ s : String, ∃ vm,
        (strings.Split s '/')[(strings.Split s '/').length - 1]? = some vm := by
  refine ⟨rfl, rfl, GetPublicIP_users_empty, ?_⟩
  intro s
  obtain ⟨last, hidx, _⟩ := strings.Split_last s '/'
  exact ⟨_, hidx⟩

/-! ## Lemmas on the normalizer -/

theorem char_eq_of_toNat_eq {a b : Char} (h : a.toNat = b.toNat) : a = b := by
  apply Char.ext
  apply UInt32.ext
  exact h

theorem keyLE_total : ∀ a b : List Char, keyLE a b = true ∨ keyLE b a = true
  | [], _ => Or.inl (by simp [keyLE])
  | _ :: _, [] => Or.inr (by simp [keyLE])
  | a :: as, b :: bs => by
    rcases keyLE_total as bs with h | h
    · by_cases h1 : a.toNat < b.toNat
      · exact Or.inl (by simp [keyLE, h1])
      · by_cases h2 : b.toNat < a.toNat
        · exact Or.inr (by simp [keyLE, h2])
        · exact Or.inl (by simp [keyLE, h1, h2, h])
    · by_cases h1 : a.toNat < b.toNat
      · exact Or.inl (by simp [keyLE, h1])
      · by_cases h2 : b.toNat < a.toNat
        · exact Or.inr (by simp [keyLE, h2])
        · exact Or.inr (by simp [keyLE, h1, h2, h])

theorem keyLE_trans : ∀ a b c : List Char, keyLE a b = true → keyLE b c = true →
    keyLE a c = true
  | [], _, _, _, _ => by simp [keyLE]
  | _ :: _, [], _, hab, _ => by simp [keyLE] at hab
  | _ :: _, _ :: _, [], _, hbc => by simp [keyLE] at hbc
  | a :: as, b :: bs, c :: cs, hab, hbc => by
    simp only [keyLE] at hab hbc ⊢
    by_cases h1 : a.toNat < b.toNat
    · by_cases h3 : b.toNat < c.toNat
      · have : a.toNat < c.toNat := by omega
        simp [this]
      · by_cases h4 : c.toNat < b.toNat
        · simp [h3, h4] at hbc
        · have : a.toNat < c.toNat := by omega
          simp [this]
    · by_cases h2 : b.toNat < a.toNat
      · simp [h1, h2] at hab
      · simp only [h1, h2, if_false] at hab
        by_cases h3 : b.toNat < c.toNat
        · have : a.toNat < c.toNat := by omega
          simp [this]
        · by_cases h4 : c.toNat < b.toNat
          · simp [h3, h4] at hbc
          · simp only [h3, h4, if_false] at hbc
            have h5 : ¬ a.toNat < c.toNat := by omega
            have h6 : ¬ c.toNat < a.toNat := by omega
            simp only [h5, h6, if_false]
            exact keyLE_trans as bs cs hab hbc

theorem keyLE_antisymm : ∀ a b : List Char, keyLE a b = true → keyLE b a = true → a = b
  | [], [], _, _ => rfl
  | [], _ :: _, _, hba => by simp [keyLE] at hba
  | _ :: _, [], hab, _ => by simp [keyLE] at hab
  | a :: as, b :: bs, hab, hba => by
    simp only [keyLE] at hab hba
    by_cases h1 : a.toNat < b.toNat
    · have h2 : ¬ b.toNat < a.toNat := by omega
      simp [h1, h2] at hba
    · by_cases h2 : b.toNat < a.toNat
      · simp [h1, h2] at hab
      · simp only [h1, h2, if_false] at hab hba
        have hc : a = b := char_eq_of_toNat_eq (by omega)
        rw [hc, keyLE_antisymm as bs hab hba]

/-- The sorted fields are the fields given, in another order. -/
theorem insertField_perm (kv : String × RawValue) :
    ∀ l : RawMapping, (insertField kv l).Perm (kv :: l)
  | [] => List.Perm.refl _
  | e :: es => by
    by_cases h : keyLE kv.1.data e.1.data = true
    · simp [insertField, h]
    · simp only [insertField, h]
      exact ((insertField_perm kv es).cons e).trans (List.Perm.swap kv e es)

theorem sortFields_perm : ∀ l : RawMapping, (sortFields l).Perm l
  | [] => List.Perm.refl _
  | kv :: rest => (insertField_perm kv (sortFields rest)).trans ((sortFields_perm rest).cons kv)

theorem insertField_sorted (kv : String × RawValue) :
    ∀ l : RawMapping, l.Pairwise (fun a b => keyLE a.1.data b.1.data = true) →
      (insertField kv l).Pairwise (fun a b => keyLE a.1.data b.1.data = true)
  | [], _ => by simp [insertField]
  | e :: es, hl => by
    have hle := List.pairwise_cons.mp hl
    by_cases h : keyLE kv.1.data e.1.data = true
    · simp only [insertField, h, if_true]
      refine List.pairwise_cons.mpr ⟨?_, hl⟩
      intro x hx
      rcases List.mem_cons.mp hx with rfl | hx'
      · exact h
      · exact keyLE_trans _ _ _ h (hle.1 x hx')
    · simp only [insertField, h]
      refine List.pairwise_cons.mpr ⟨?_, insertField_sorted kv es hle.2⟩
      intro x hx
      rcases List.mem_cons.mp ((insertField_perm kv es).subset hx) with rfl | hx'
      · rcases keyLE_total x.1.data e.1.data with h1 | h1
        · exact absurd h1 h
        · exact h1
      · exact hle.1 x hx'

theorem sortFields_sorted : ∀ l : RawMapping,
    (sortFields l).Pairwise (fun a b => keyLE a.1.data b.1.data = true)
  | [] => List.Pairwise.nil
  | kv :: rest => insertField_sorted kv (sortFields rest) (sortFields_sorted rest)

/-- Two sequences of fields with distinct keys, both in ascending key order and
holding the same fields, are the same sequence. -/
theorem sorted_fields_unique (l₁ l₂ : RawMapping) (hp : l₁.Perm l₂)
    (hkeys : (l₁.map Prod.fst).Nodup)
    (h₁ : l₁.Pairwise (fun a b => keyLE a.1.data b.1.data = true))
    (h₂ : l₂.Pairwise (fun a b => keyLE a.1.data b.1.data = true)) : l₁ = l₂ := by
  have hkeys₂ : (l₂.map Prod.fst).Nodup := (hp.map Prod.fst).nodup_iff.mp hkeys
  have strict : ∀ l : RawMapping, (l.map Prod.fst).Nodup →
      l.Pairwise (fun a b => keyLE a.1.data b.1.data = true) →
      l.Pairwise (fun a b => keyLE a.1.data b.1.data = true ∧ a.1 ≠ b.1) := by
    intro l hn hs
    have hne : l.Pairwise (fun a b => a.1 ≠ b.1) := by
      have := List.pairwise_map.mp hn
      exact this
    exact hs.and hne
  haveI : IsAntisymm (String × RawValue)
      (fun a b => keyLE a.1.data b.1.data = true ∧ a.1 ≠ b.1) :=
    ⟨fun a b hab hba => absurd (String.ext (keyLE_antisymm _ _ hab.1 hba.1)) hab.2⟩
  exact List.eq_of_perm_of_sorted hp (strict l₁ hkeys h₁) (strict l₂ hkeys₂ h₂)

/-- The serialised form of a value is the empty string for the empty scalar
only. -/
theorem RawValue.render_eq_empty (v : RawValue) (h : v.render = "") : v = .scalar "" := by
  cases v with
  | scalar text =>
    simp only [RawValue.render] at h
    rw [h]
  | array items =>
    simp only [RawValue.render] at h
    have hlen := congrArg String.length h
    simp only [String.length_append] at hlen
    have hlast : "]".length = 1 := by decide
    have hlast2 : "\x7d".length = 1 := by decide
    have hzero : "".length = 0 := by decide
    omega
  | object fields =>
    simp only [RawValue.render] at h
    have hlen := congrArg String.length h
    simp only [String.length_append] at hlen
    have hlast : "]".length = 1 := by decide
    have hlast2 : "\x7d".length = 1 := by decide
    have hzero : "".length = 0 := by decide
    omega

/-- C15: for a field mapping whose keys are distinct, `GetKeyValueList` gives
as many entries as the mapping has fields; every key of the mapping is the key
of exactly one entry and no entry has another key; the entry of a key carries
the serialised value of that field, which is the empty string only when the
value is the empty scalar, so no value is left out or emptied; and the
sequence, order included, is the same for every order in which the Go map's
fields are visited, so repeated calls on the same mapping agree. -/
theorem GetKeyValueList_spec (i : RawMapping) (hkeys : (i.map Prod.fst).Nodup) :
    (GetKeyValueList i).length = i.length ∧
      (∀ k ∈ i.map Prod.fst, ((GetKeyValueList i).map KeyValue.Key).count k = 1) ∧
      (∀ e ∈ GetKeyValueList i, e.Key ∈ i.map Prod.fst) ∧
      (∀ k v, (k, v) ∈ i → ∃ e ∈ GetKeyValueList i,
        e.Key = k ∧ e.Value = v.render ∧ (e.Value = "" → v = .scalar "")) ∧
      (∀ j : RawMapping, j.Perm i → GetKeyValueList j = GetKeyValueList i) := by
  have hperm := sortFields_perm i
  have hk : ((GetKeyValueList i).map KeyValue.Key).Perm (i.map Prod.fst) := by
    have : (GetKeyValueList i).map KeyValue.Key = (sortFields i).map Prod.fst := by
      simp [GetKeyValueList, List.map_map, Function.comp_def]
    rw [this]
    exact hperm.map Prod.fst
  refine ⟨?_, ?_, ?_, ?_, ?_⟩
  · simp only [GetKeyValueList, List.length_map]
    exact hperm.length_eq
  · intro k hmem
    rw [hk.count_eq]
    exact List.count_eq_one_of_mem hkeys hmem
  · intro e he
    exact hk.subset (List.mem_map.mpr ⟨e, he, rfl⟩)
  · intro k v hmem
    refine ⟨{ Key := k, Value := v.render }, ?_, rfl, rfl, ?_⟩
    · exact List.mem_map.mpr ⟨(k, v), hperm.symm.subset hmem, rfl⟩
    · intro hv
      exact RawValue.render_eq_empty v hv
  · intro j hj
    have hpj : (sortFields j).Perm (sortFields i) :=
      ((sortFields_perm j).trans hj).trans hperm.symm
    have hkj : ((sortFields j).map Prod.fst).Nodup :=
      (((sortFields_perm j).trans hj).map Prod.fst).nodup_iff.mpr hkeys
    have heq := sorted_fields_unique (sortFields j) (sortFields i) hpj hkj
      (sortFields_sorted j) (sortFields_sorted i)
    simp only [GetKeyValueList, heq]

/-- The mapping with the fields `name` and `users`: two entries, the array
serialised to one string, and the same sequence when the map's fields are
visited `users` first. -/
theorem GetKeyValueList_spec_witness :
    ((GetKeyValueList rawTwo).length = rawTwo.length ∧
      (∀ k ∈ rawTwo.map Prod.fst, ((GetKeyValueList rawTwo).map KeyValue.Key).count k = 1) ∧
      (∀ e ∈ GetKeyValueList rawTwo, e.Key ∈ rawTwo.map Prod.fst) ∧
      (∀ k v, (k, v) ∈ rawTwo → ∃ e ∈ GetKeyValueList rawTwo,
        e.Key = k ∧ e.Value = v.render ∧ (e.Value = "" → v = .scalar "")) ∧
      (∀ j : RawMapping, j.Perm rawTwo → GetKeyValueList j = GetKeyValueList rawTwo)) ∧
    GetKeyValueList rawTwo
      = [⟨"name", "ip-2"⟩, ⟨"users", "[zones/asia-a/instances/vm-1,]"⟩] ∧
    GetKeyValueList rawTwoSwapped
      = [⟨"name", "ip-2"⟩, ⟨"users", "[zones/asia-a/instances/vm-1,]"⟩] :=
  ⟨GetKeyValueList_spec rawTwo (by decide), by decide, by decide⟩

end CBSpider
